import Mathlib

/-!
Verification of the Coup ("Conspire: Hidden Agenda") game rule engine.

The TypeScript sources hold two closely related copies of the rule module:
`src/lib/game/gameRules.ts` (referred to below as `GameRules`) and a second
variant of the same module (referred to as `Variant0`) that additionally
carries a treasury, an `Exchange` case in `applyAction`, `handleChallenge`
and `completeExchange`.  Shared data types and the functions that are
textually identical in both copies are defined once; the functions that
differ are defined in their respective namespaces.

The shuffle uses `Math.random()`; following the spec's injectable-randomness
requirement it is modelled by an explicit `rand : Nat → Nat` argument, where
`rand i % (i + 1)` plays the role of `Math.floor(Math.random() * (i + 1))`.
JS array indexing, `findIndex`, `push`, `pop` and `splice` are modelled by
the explicit list helpers below.
-/

namespace Conspire

/-- `CardType` from `supabaseClient.ts`. -/
inductive CardType
  | duke | assassin | captain | ambassador | contessa | inquisitor
deriving DecidableEq

/-- `Card = { type, revealed }`. -/
structure Card where
  type : CardType
  revealed : Bool
deriving DecidableEq

/-- Reformation-expansion allegiance label. -/
inductive Allegiance
  | loyalist | reformist
deriving DecidableEq

/-- `Player` from `supabaseClient.ts`; `coins` is a JS number, modelled as `Int`. -/
structure Player where
  id : String
  user_id : String
  display_name : String
  displayName : String
  coins : Int
  cards : List Card
  eliminated : Bool
  allegiance : Option Allegiance
deriving DecidableEq

/-- The `expansions` record of `GameSettings`. -/
structure Expansions where
  reformation : Bool
  inquisitor : Bool
  anarchy : Bool
deriving DecidableEq

/-- `GameSettings` from `supabaseClient.ts`. -/
structure GameSettings where
  expansions : Expansions
  startingCoins : Int
  maxPlayers : Nat
deriving DecidableEq

/-- The `status` field of `GameState`. -/
inductive GameStatus
  | waiting | in_progress | completed
deriving DecidableEq

/-- The `ActionType` string enum of `gameRules.ts`. -/
inductive ActionType
  | Income | ForeignAid | Coup | Tax | Assassinate | Steal | Exchange
  | Question | Convert | Embezzle | Interrogate
deriving DecidableEq

/-- The `currentAction` record of `GameState`. -/
structure CurrentAction where
  type : String
  player : String
  target : Option String
  blockable : Bool
  challengeable : Bool
deriving DecidableEq

/-- The `lastAction` log record.  JS objects gain fields dynamically
(`{...lastAction, challengeResult: ...}`), so every field is optional. -/
structure LastAction where
  type : Option ActionType := none
  player : Option String := none
  target : Option String := none
  result : Option String := none
  challengeResult : Option String := none
deriving DecidableEq

/-- The `cardSelection` record installed by the `Exchange` case of the
variant `applyAction` and consumed by `completeExchange`. -/
structure CardSelection where
  playerId : String
  reason : String
  validCards : List CardType
  action : ActionType
deriving DecidableEq

/-- `GameState` from `supabaseClient.ts` together with the dynamically added
`treasury` and `cardSelection` fields used by the variant module. -/
structure GameState where
  status : GameStatus
  deck : List CardType
  currentPlayerIndex : Nat
  players : List Player
  currentAction : Option CurrentAction
  lastAction : Option LastAction
  winner : Option String
  treasury : Option Int
  cardSelection : Option CardSelection
deriving DecidableEq

/-! ### JS list primitives -/

/-- JS `Array.prototype.findIndex`, returning the index together with the
element found (the sources always read `players[index]` right after). -/
def jsFindEntry (p : α → Bool) : List α → Option (Nat × α)
  | [] => none
  | a :: as => if p a then some (0, a) else (jsFindEntry p as).map (fun x => (x.1 + 1, x.2))

/-- In-place update of one array slot, `l[i] = f l[i]`. -/
def listModify (l : List α) (i : Nat) (f : α → α) : List α :=
  match l, i with
  | [], _ => []
  | a :: as, 0 => f a :: as
  | a :: as, n + 1 => a :: listModify as n f

/-! ### Static rule tables (identical in both copies) -/

/-- `characterActions`: claimed characters per action; actions missing from
the table give `[]` (the sources use `actionType in characterActions ? ... : []`). -/
def characterActions : ActionType → List CardType
  | .Tax => [.duke]
  | .Assassinate => [.assassin]
  | .Steal => [.captain]
  | .Exchange => [.ambassador]
  | .Question => [.inquisitor]
  | .Interrogate => [.inquisitor]
  | .Embezzle => [.duke]
  | _ => []

/-- `actionCosts`. -/
def actionCosts : ActionType → Int
  | .Income => 0
  | .ForeignAid => 0
  | .Tax => 0
  | .Steal => 0
  | .Exchange => 0
  | .Question => 0
  | .Convert => 1
  | .Embezzle => 0
  | .Interrogate => 0
  | .Assassinate => 3
  | .Coup => 7

/-- `actionRequiresTarget`. -/
def actionRequiresTarget : ActionType → Bool
  | .Income => false
  | .ForeignAid => false
  | .Tax => false
  | .Exchange => false
  | .Embezzle => false
  | .Coup => true
  | .Assassinate => true
  | .Steal => true
  | .Question => true
  | .Interrogate => true
  | .Convert => true

/-! ### Fisher–Yates shuffle -/

/-- One swap `[deck[i], deck[j]] = [deck[j], deck[i]]`. -/
def listSwap (l : List α) (i j : Nat) : List α :=
  match l[i]?, l[j]? with
  | some a, some b => (l.set i b).set j a
  | _, _ => l

/-- The loop `for (let i = n - 1; i > 0; i--)` of `shuffleDeck`, counting
down the loop variable. -/
def fisherYatesAux (rand : Nat → Nat) : Nat → List α → List α
  | 0, l => l
  | i + 1, l => fisherYatesAux rand i (listSwap l (i + 1) (rand (i + 1) % (i + 2)))

/-- `shuffleDeck` (identical in both copies), with the random source passed
explicitly. -/
def shuffleDeck (deck : List α) (rand : Nat → Nat) : List α :=
  fisherYatesAux rand (deck.length - 1) deck

/-! ### Validation, game-over check, action menu (identical in both copies) -/

/-- Result record of `canPerformAction`. -/
structure ActionCheck where
  allowed : Bool
  reason : Option String := none
deriving DecidableEq

/-- `canPerformAction(player, action, target?)`. -/
def canPerformAction (player : Player) (action : ActionType) (target : Option Player) :
    ActionCheck :=
  let cost := actionCosts action
  if player.coins < cost then
    { allowed := false,
      reason := some ("Not enough coins. Needed: " ++ toString cost ++ ", Have: "
        ++ toString player.coins) }
  else if 10 ≤ player.coins ∧ action ≠ ActionType.Coup then
    { allowed := false, reason := some "With 10 or more coins, you must perform a coup" }
  else if actionRequiresTarget action = true ∧ target = none then
    { allowed := false, reason := some "This action requires a target" }
  else if (target.map Player.eliminated).getD false then
    { allowed := false, reason := some "Cannot target an eliminated player" }
  else if ((target.map (fun t => decide (t.id = player.id))).getD false
      && !decide (action = ActionType.Exchange)) then
    { allowed := false, reason := some "Cannot target yourself with this action" }
  else
    { allowed := true }

/-- Result record of `checkGameOver`; the sources return the winning `Player`. -/
structure GameOverCheck where
  isOver : Bool
  winner : Option Player := none
deriving DecidableEq

/-- `checkGameOver(gameState)` (identical in both copies).  Note that the
team-victory branch compares possibly-`undefined` allegiances with `===`. -/
def checkGameOver (gameState : GameState) : GameOverCheck :=
  let activePlayers := gameState.players.filter (fun p => !p.eliminated)
  match activePlayers with
  | [] => { isOver := false }
  | p0 :: rest =>
    if rest.isEmpty then
      { isOver := true, winner := some p0 }
    else if (p0 :: rest).all (fun p => decide (p.allegiance = p0.allegiance)) then
      { isOver := true, winner := some p0 }
    else
      { isOver := false }

/-- `getAvailableActions(player, gameState)` (identical in both copies);
the JS `push` calls are rendered as ordered list concatenation. -/
def getAvailableActions (player : Player) (gameState : GameState) : List ActionType :=
  let playerCards := (player.cards.filter (fun c => !c.revealed)).map Card.type
  [ActionType.Income, ActionType.ForeignAid]
    ++ (if actionCosts ActionType.Coup ≤ player.coins then [ActionType.Coup] else [])
    ++ (if decide (CardType.duke ∈ playerCards) then [ActionType.Tax] else [])
    ++ (if decide (CardType.assassin ∈ playerCards)
          && decide (actionCosts ActionType.Assassinate ≤ player.coins) then
          [ActionType.Assassinate] else [])
    ++ (if decide (CardType.captain ∈ playerCards) then [ActionType.Steal] else [])
    ++ (if decide (CardType.ambassador ∈ playerCards) then [ActionType.Exchange] else [])
    ++ (if decide (CardType.inquisitor ∈ playerCards) then
          [ActionType.Question, ActionType.Interrogate] else [])
    ++ (if gameState.players.any (fun p => p.allegiance.isSome)
          && decide (actionCosts ActionType.Convert ≤ player.coins) then
          [ActionType.Convert] else [])

/-! ### Shared pieces of the action resolvers -/

/-- The reveal-one-influence step used by `applyAction` (Assassinate/Coup) and
`handleChallenge`: find the first unrevealed card by index, flag it revealed,
and set `eliminated` when every card has become revealed. -/
def revealAndMaybeEliminate (p : Player) : Player :=
  match jsFindEntry (fun c => !c.revealed) p.cards with
  | none => p
  | some (i, _) =>
    let cards := listModify p.cards i (fun c => { c with revealed := true })
    { p with
      cards := cards,
      eliminated := if cards.all (fun c => c.revealed) then true else p.eliminated }

/-- The `while (players[next].eliminated)` scan: starting at `start`, advance
cyclically looking for a non-eliminated player, giving up after `fuel` probes
(the source loop in `GameRules.applyAction` has no guard and would run forever
exactly when `players.length` probes find nobody). -/
def findActiveFrom (players : List Player) : Nat → Nat → Option Nat
  | _, 0 => none
  | start, fuel + 1 =>
    match players[start]? with
    | some p =>
      if p.eliminated then findActiveFrom players ((start + 1) % players.length) fuel
      else some start
    | none => none

/-- Builds the `lastAction` record `{ type, player, result: 'success' }`. -/
def successLog (action : ActionType) (playerId : String) (targetId : Option String) :
    Option LastAction :=
  some { type := some action, player := some playerId, target := targetId,
         result := some "success" }

/-- `const targetIndex = targetId ? players.findIndex(p => p.id === targetId) : -1`
together with the following `players[targetIndex]` read. -/
def lookupTarget (players : List Player) : Option String → Option (Nat × Player)
  | some t => jsFindEntry (fun p => decide (p.id = t)) players
  | none => none

namespace GameRules

/-- `createDeck(settings)` of `src/lib/game/gameRules.ts`: the literal deck
lists only duke/assassin/captain/contessa; the inquisitor branch maps
ambassadors (of which there are none) to inquisitors and returns early,
skipping both the ambassador push and the shuffle. -/
def createDeck (settings : GameSettings) (rand : Nat → Nat) : List CardType :=
  let deck : List CardType :=
    [.duke, .duke, .duke,
     .assassin, .assassin, .assassin,
     .captain, .captain, .captain,
     .contessa, .contessa, .contessa]
  if settings.expansions.inquisitor then
    deck.map (fun card => if card = CardType.ambassador then CardType.inquisitor else card)
  else
    shuffleDeck (deck ++ [.ambassador, .ambassador, .ambassador]) rand

/-- The `switch (action)` body of `applyAction`: per-action effects applied to
the deep copy.  `actor` is `players[playerIndex]`, `targetEntry` the index and
value found for `targetId` (or `none`). -/
def applyEffects (gs : GameState) (playerId : String) (playerIndex : Nat) (actor : Player)
    (targetId : Option String) (targetEntry : Option (Nat × Player)) (action : ActionType) :
    GameState :=
  match action with
  | .Income =>
    { gs with
      players := listModify gs.players playerIndex (fun p => { p with coins := p.coins + 1 }),
      lastAction := successLog action playerId none }
  | .ForeignAid =>
    { gs with
      players := listModify gs.players playerIndex (fun p => { p with coins := p.coins + 2 }),
      lastAction := successLog action playerId none }
  | .Tax =>
    { gs with
      players := listModify gs.players playerIndex (fun p => { p with coins := p.coins + 3 }),
      lastAction := successLog action playerId none }
  | .Steal =>
    match targetEntry with
    | some (targetIndex, target) =>
      let stealAmount := min 2 target.coins
      { gs with
        players := listModify
          (listModify gs.players targetIndex (fun p => { p with coins := p.coins - stealAmount }))
          playerIndex (fun p => { p with coins := p.coins + stealAmount }),
        lastAction := successLog action playerId targetId }
    | none => gs
  | .Assassinate =>
    match targetEntry with
    | some (targetIndex, _) =>
      { gs with
        players := listModify
          (listModify gs.players playerIndex
            (fun p => { p with coins := p.coins - actionCosts ActionType.Assassinate }))
          targetIndex revealAndMaybeEliminate,
        lastAction := successLog action playerId targetId }
    | none => gs
  | .Coup =>
    match targetEntry with
    | some (targetIndex, _) =>
      { gs with
        players := listModify
          (listModify gs.players playerIndex
            (fun p => { p with coins := p.coins - actionCosts ActionType.Coup }))
          targetIndex revealAndMaybeEliminate,
        lastAction := successLog action playerId targetId }
    | none => gs
  | .Convert =>
    match targetEntry with
    | some (targetIndex, _) =>
      match actor.allegiance with
      | some alg =>
        { gs with
          players := listModify
            (listModify gs.players playerIndex
              (fun p => { p with coins := p.coins - actionCosts ActionType.Convert }))
            targetIndex (fun p => { p with allegiance := some alg }),
          lastAction := successLog action playerId targetId }
      | none => gs
    | none => gs
  | _ => gs

/-- `const gameOver = checkGameOver(newState); if (gameOver.isOver &&
gameOver.winner) { ... }` — the closing game-over update of `applyAction`. -/
def finishGameOver (ns2 : GameState) : GameState :=
  let gameOver := checkGameOver ns2
  match gameOver.isOver, gameOver.winner with
  | true, some w => { ns2 with status := GameStatus.completed, winner := some w.id }
  | _, _ => ns2

/-- The tail of `applyAction`: advance `currentPlayerIndex` cyclically past
eliminated players, then run `checkGameOver` and close out the game.  Returns
`none` when the unguarded `while` loop of the source would never terminate. -/
def closeTurn (ns : GameState) (playerIndex : Nat) : Option GameState :=
  match findActiveFrom ns.players ((playerIndex + 1) % ns.players.length) ns.players.length with
  | none => none
  | some nxt => some (finishGameOver { ns with currentPlayerIndex := nxt })

/-- `applyAction(gameState, playerId, action, targetId?)` of
`src/lib/game/gameRules.ts`.  An unknown `playerId` returns the input state
itself; `some` wraps every returned snapshot, `none` marking only the
divergence of the unguarded next-player loop. -/
def applyAction (gameState : GameState) (playerId : String) (action : ActionType)
    (targetId : Option String) : Option GameState :=
  match jsFindEntry (fun p => decide (p.id = playerId)) gameState.players with
  | none => some gameState
  | some (playerIndex, actor) =>
    closeTurn (applyEffects gameState playerId playerIndex actor targetId
      (lookupTarget gameState.players targetId) action) playerIndex

end GameRules

namespace Variant0

/-- `createDeck(settings)` of the variant module: the literal deck does hold
three ambassadors, and the inquisitor branch maps them to inquisitors — but
it still returns early, skipping the shuffle. -/
def createDeck (settings : GameSettings) (rand : Nat → Nat) : List CardType :=
  let deck : List CardType :=
    [.duke, .duke, .duke,
     .assassin, .assassin, .assassin,
     .captain, .captain, .captain,
     .ambassador, .ambassador, .ambassador,
     .contessa, .contessa, .contessa]
  if settings.expansions.inquisitor then
    deck.map (fun card => if card = CardType.ambassador then CardType.inquisitor else card)
  else
    shuffleDeck deck rand

/-- JS `newState.treasury || 50`: `undefined` and `0` are both falsy. -/
def treasuryOr50 : Option Int → Int
  | none => 50
  | some v => if v = 0 then 50 else v

/-- The `switch (action)` body of the variant `applyAction`: like
`GameRules.applyEffects` but with treasury bookkeeping on the income-like
actions and an `Exchange` case that drains two cards into `cardSelection`. -/
def applyEffects (gs : GameState) (playerId : String) (playerIndex : Nat) (actor : Player)
    (targetId : Option String) (targetEntry : Option (Nat × Player)) (action : ActionType) :
    GameState :=
  match action with
  | .Income =>
    { gs with
      players := listModify gs.players playerIndex (fun p => { p with coins := p.coins + 1 }),
      treasury := some (max 0 (treasuryOr50 gs.treasury - 1)),
      lastAction := successLog action playerId none }
  | .ForeignAid =>
    { gs with
      players := listModify gs.players playerIndex (fun p => { p with coins := p.coins + 2 }),
      treasury := some (max 0 (treasuryOr50 gs.treasury - 2)),
      lastAction := successLog action playerId none }
  | .Tax =>
    { gs with
      players := listModify gs.players playerIndex (fun p => { p with coins := p.coins + 3 }),
      treasury := some (max 0 (treasuryOr50 gs.treasury - 3)),
      lastAction := successLog action playerId none }
  | .Exchange =>
    let drawnCards := gs.deck.take 2
    { gs with
      deck := gs.deck.drop 2,
      cardSelection := some
        { playerId := playerId,
          reason := "exchange",
          validCards := drawnCards
            ++ ((actor.cards.filter (fun c => !c.revealed)).map Card.type),
          action := action },
      lastAction := successLog action playerId none }
  | .Steal =>
    match targetEntry with
    | some (targetIndex, target) =>
      let stealAmount := min 2 target.coins
      { gs with
        players := listModify
          (listModify gs.players targetIndex (fun p => { p with coins := p.coins - stealAmount }))
          playerIndex (fun p => { p with coins := p.coins + stealAmount }),
        lastAction := successLog action playerId targetId }
    | none => gs
  | .Assassinate =>
    match targetEntry with
    | some (targetIndex, _) =>
      { gs with
        players := listModify
          (listModify gs.players playerIndex
            (fun p => { p with coins := p.coins - actionCosts ActionType.Assassinate }))
          targetIndex revealAndMaybeEliminate,
        lastAction := successLog action playerId targetId }
    | none => gs
  | .Coup =>
    match targetEntry with
    | some (targetIndex, _) =>
      { gs with
        players := listModify
          (listModify gs.players playerIndex
            (fun p => { p with coins := p.coins - actionCosts ActionType.Coup }))
          targetIndex revealAndMaybeEliminate,
        lastAction := successLog action playerId targetId }
    | none => gs
  | .Convert =>
    match targetEntry with
    | some (targetIndex, _) =>
      match actor.allegiance with
      | some alg =>
        { gs with
          players := listModify
            (listModify gs.players playerIndex
              (fun p => { p with coins := p.coins - actionCosts ActionType.Convert }))
            targetIndex (fun p => { p with allegiance := some alg }),
          lastAction := successLog action playerId targetId }
      | none => gs
    | none => gs
  | _ => gs

/-- The tail of the variant `applyAction`: the next-player loop carries a
`loopCount < players.length` guard (`currentPlayerIndex` is left unchanged
when no active player is found), and only the single-survivor game-over
check is run. -/
def closeTurn (ns : GameState) (playerIndex : Nat) : GameState :=
  let ns2 :=
    match findActiveFrom ns.players ((playerIndex + 1) % ns.players.length) ns.players.length with
    | some nxt => { ns with currentPlayerIndex := nxt }
    | none => ns
  match ns2.players.filter (fun p => !p.eliminated) with
  | [w] => { ns2 with status := GameStatus.completed, winner := some w.id }
  | _ => ns2

/-- `applyAction` of the variant module (total: its loops are guarded). -/
def applyAction (gameState : GameState) (playerId : String) (action : ActionType)
    (targetId : Option String) : GameState :=
  match jsFindEntry (fun p => decide (p.id = playerId)) gameState.players with
  | none => gameState
  | some (playerIndex, actor) =>
    closeTurn (applyEffects gameState playerId playerIndex actor targetId
      (lookupTarget gameState.players targetId) action) playerIndex

/-- `{...lastAction, result: 'challenged', challengeResult: r}`; spreading a
`null` log yields an otherwise-empty record. -/
def challengeLog (la : Option LastAction) (r : String) : Option LastAction :=
  some { la.getD {} with result := some "challenged", challengeResult := some r }

/-- `handleChallenge(gameState, challengerId, actionPlayerId, actionType)` of
the variant module, with the shuffle's random source passed explicitly. -/
def handleChallenge (gameState : GameState) (challengerId actionPlayerId : String)
    (actionType : ActionType) (rand : Nat → Nat) : GameState :=
  match jsFindEntry (fun p => decide (p.id = challengerId)) gameState.players,
        jsFindEntry (fun p => decide (p.id = actionPlayerId)) gameState.players with
  | some (challengerIndex, _), some (actionPlayerIndex, accused) =>
    let requiredCards := characterActions actionType
    if accused.cards.any (fun c => !c.revealed && decide (c.type ∈ requiredCards)) then
      -- challenge fails: challenger loses influence
      let players1 := listModify gameState.players challengerIndex revealAndMaybeEliminate
      -- the challenged player returns the matching card and draws a replacement
      match players1[actionPlayerIndex]? with
      | some accused1 =>
        match jsFindEntry (fun c => !c.revealed && decide (c.type ∈ requiredCards))
            accused1.cards with
        | some (cardIndex, card) =>
          let deck1 := shuffleDeck (gameState.deck ++ [card.type]) rand
          match deck1.getLast? with
          | some newCard =>
            { gameState with
              players := listModify players1 actionPlayerIndex
                (fun p => { p with
                  cards := listModify p.cards cardIndex (fun c => { c with type := newCard }) }),
              deck := deck1.dropLast,
              lastAction := challengeLog gameState.lastAction "failed" }
          | none =>
            -- unreachable: the deck is nonempty right after the push
            { gameState with
              players := players1,
              deck := deck1.dropLast,
              lastAction := challengeLog gameState.lastAction "failed" }
        | none =>
          { gameState with
            players := players1,
            lastAction := challengeLog gameState.lastAction "failed" }
      | none =>
        -- unreachable: actionPlayerIndex is a valid index
        { gameState with
          players := players1,
          lastAction := challengeLog gameState.lastAction "failed" }
    else
      -- challenge succeeds: the action player loses influence and is refunded
      let players1 := listModify gameState.players actionPlayerIndex revealAndMaybeEliminate
      let actionCost := actionCosts actionType
      let players2 :=
        if 0 < actionCost then
          listModify players1 actionPlayerIndex (fun p => { p with coins := p.coins + actionCost })
        else players1
      { gameState with
        players := players2,
        lastAction := challengeLog gameState.lastAction "succeeded" }
  | _, _ => gameState

/-- Replace each unrevealed hand slot's character type with the next selected
type, preserving slot order (the `for` loop of `completeExchange`; the
selection pointer never runs out on the reachable path because the selection
count was checked first). -/
def replaceUnrevealed : List Card → List CardType → List Card
  | [], _ => []
  | c :: cs, sel =>
    if c.revealed then c :: replaceUnrevealed cs sel
    else
      match sel with
      | t :: ts => { c with type := t } :: replaceUnrevealed cs ts
      | [] => c :: replaceUnrevealed cs []

/-- `completeExchange(gameState, playerId, selectedCards)` of the variant
module, with the shuffle's random source passed explicitly. -/
def completeExchange (gameState : GameState) (playerId : String)
    (selectedCards : List CardType) (rand : Nat → Nat) : GameState :=
  match jsFindEntry (fun p => decide (p.id = playerId)) gameState.players with
  | none => gameState
  | some (playerIndex, player) =>
    let nonRevealedCount := (player.cards.filter (fun c => !c.revealed)).length
    if selectedCards.length ≠ nonRevealedCount then gameState
    else
      match gameState.cardSelection with
      | none => gameState
      | some currentCardSelection =>
        if currentCardSelection.playerId = playerId ∧ currentCardSelection.reason = "exchange" then
          let remainingCards := currentCardSelection.validCards.filter
            (fun c => !decide (c ∈ selectedCards))
          { gameState with
            players := listModify gameState.players playerIndex
              (fun p => { p with cards := replaceUnrevealed p.cards selectedCards }),
            deck := shuffleDeck (gameState.deck ++ remainingCards) rand,
            cardSelection := none }
        else gameState

end Variant0

/-! ### Derived counting functions -/

/-- Number of revealed cards in a hand. -/
def revealedCount (cards : List Card) : Nat :=
  (cards.filter (fun c => c.revealed)).length

/-- Number of unrevealed cards (remaining influence) in a hand. -/
def unrevealedCount (cards : List Card) : Nat :=
  (cards.filter (fun c => !c.revealed)).length

/-- Total number of revealed cards across all players of a state. -/
def totalRevealed (gs : GameState) : Nat :=
  (gs.players.map (fun p => revealedCount p.cards)).sum

/-! ### Lemmas about the JS list primitives -/

theorem jsFindEntry_eq_none {p : α → Bool} {l : List α}
    (h : ∀ a ∈ l, p a = false) : jsFindEntry p l = none := by
  induction l with
  | nil => rfl
  | cons a as ih =>
    simp only [jsFindEntry, h a (by simp)]
    simp only [Bool.false_eq_true, if_false, ih fun x hx => h x (by simp [hx]), Option.map_none']

theorem jsFindEntry_some {p : α → Bool} {l : List α} {i : Nat} {a : α}
    (h : jsFindEntry p l = some (i, a)) : l[i]? = some a ∧ p a = true := by
  induction l generalizing i with
  | nil => simp [jsFindEntry] at h
  | cons b bs ih =>
    by_cases hb : p b
    · simp only [jsFindEntry, hb, if_true, Option.some.injEq, Prod.mk.injEq] at h
      obtain ⟨hi, ha⟩ := h
      subst ha
      simp [← hi, hb]
    · simp only [jsFindEntry, hb, Bool.false_eq_true, if_false, Option.map_eq_some'] at h
      obtain ⟨⟨j, c⟩, hj, hval⟩ := h
      simp only [Prod.mk.injEq] at hval
      obtain ⟨hj1, hj2⟩ := hval
      subst hj2
      obtain ⟨hget, hp⟩ := ih hj
      refine ⟨?_, hp⟩
      simpa [← hj1] using hget

theorem jsFindEntry_isSome_of_any {p : α → Bool} {l : List α}
    (h : l.any p = true) : ∃ i a, jsFindEntry p l = some (i, a) := by
  induction l with
  | nil => simp at h
  | cons b bs ih =>
    by_cases hb : p b
    · exact ⟨0, b, by simp [jsFindEntry, hb]⟩
    · simp only [List.any_cons, hb, Bool.false_or] at h
      obtain ⟨i, a, hia⟩ := ih h
      exact ⟨i + 1, a, by simp [jsFindEntry, hb, hia]⟩

theorem length_listModify (l : List α) (i : Nat) (f : α → α) :
    (listModify l i f).length = l.length := by
  induction l generalizing i with
  | nil => rfl
  | cons a as ih =>
    cases i with
    | zero => rfl
    | succ n => simp [listModify, ih]

theorem getElem?_listModify_self {l : List α} {i : Nat} {a : α} (f : α → α)
    (h : l[i]? = some a) : (listModify l i f)[i]? = some (f a) := by
  induction l generalizing i with
  | nil => simp at h
  | cons b bs ih =>
    cases i with
    | zero => simp_all [listModify]
    | succ n =>
      simp only [List.getElem?_cons_succ] at h
      simpa [listModify] using ih h

theorem getElem?_listModify_ne {l : List α} {i j : Nat} (f : α → α) (h : i ≠ j) :
    (listModify l i f)[j]? = l[j]? := by
  induction l generalizing i j with
  | nil => rfl
  | cons b bs ih =>
    cases i with
    | zero =>
      cases j with
      | zero => exact absurd rfl h
      | succ m => simp [listModify]
    | succ n =>
      cases j with
      | zero => simp [listModify]
      | succ m =>
        simp only [listModify, List.getElem?_cons_succ]
        exact ih fun hc => h (by simp [hc])

theorem mem_listModify {l : List α} {i : Nat} {f : α → α} {x : α}
    (h : x ∈ listModify l i f) : x ∈ l ∨ ∃ y, l[i]? = some y ∧ x = f y := by
  induction l generalizing i with
  | nil => simp [listModify] at h
  | cons b bs ih =>
    cases i with
    | zero =>
      rcases List.mem_cons.mp h with hx | hx
      · exact Or.inr ⟨b, by simp, hx⟩
      · exact Or.inl (List.mem_cons_of_mem _ hx)
    | succ n =>
      rcases List.mem_cons.mp h with hx | hx
      · exact Or.inl (hx ▸ List.mem_cons_self _ _)
      · rcases ih hx with hy | ⟨y, hy, hxy⟩
        · exact Or.inl (List.mem_cons_of_mem _ hy)
        · exact Or.inr ⟨y, by simpa using hy, hxy⟩

theorem countP_listModify {l : List α} {i : Nat} {a : α} (p : α → Bool) (f : α → α)
    (h : l[i]? = some a) :
    (listModify l i f).countP p + (if p a then 1 else 0)
      = l.countP p + (if p (f a) then 1 else 0) := by
  induction l generalizing i with
  | nil => simp at h
  | cons b bs ih =>
    cases i with
    | zero =>
      simp only [List.getElem?_cons_zero, Option.some.injEq] at h
      subst h
      simp only [listModify, List.countP_cons]
      by_cases hp : p b <;> by_cases hpf : p (f b) <;> simp [hp, hpf]
    | succ n =>
      simp only [List.getElem?_cons_succ] at h
      simp only [listModify, List.countP_cons]
      have := ih h
      by_cases hp : p b <;> simp [hp] <;> omega

theorem sum_map_listModify {l : List α} {i : Nat} {a : α} (h : α → Nat) (f : α → α)
    (hget : l[i]? = some a) :
    ((listModify l i f).map h).sum + h a = (l.map h).sum + h (f a) := by
  induction l generalizing i with
  | nil => simp at hget
  | cons b bs ih =>
    cases i with
    | zero =>
      simp only [List.getElem?_cons_zero, Option.some.injEq] at hget
      subst hget
      simp [listModify]
      omega
    | succ n =>
      simp only [List.getElem?_cons_succ] at hget
      have := ih hget
      simp only [listModify, List.map_cons, List.sum_cons]
      omega

/-! ### Lemmas about the shuffle -/

theorem length_listSwap (l : List α) (i j : Nat) : (listSwap l i j).length = l.length := by
  unfold listSwap
  cases h1 : l[i]? <;> cases h2 : l[j]? <;> simp

theorem length_fisherYatesAux (rand : Nat → Nat) (n : Nat) (l : List α) :
    (fisherYatesAux rand n l).length = l.length := by
  induction n generalizing l with
  | zero => rfl
  | succ m ih => simp [fisherYatesAux, ih, length_listSwap]

theorem length_shuffleDeck (l : List α) (rand : Nat → Nat) :
    (shuffleDeck l rand).length = l.length :=
  length_fisherYatesAux rand _ l

/-! ### Lemmas about the next-player scan -/

theorem findActiveFrom_isSome (players : List Player) :
    ∀ fuel start, start < players.length →
      (∃ k, k < fuel ∧ ∃ q, players[(start + k) % players.length]? = some q ∧
        q.eliminated = false) →
      (findActiveFrom players start fuel).isSome = true := by
  intro fuel
  induction fuel with
  | zero => intro start _ h; obtain ⟨k, hk, _⟩ := h; omega
  | succ m ih =>
    intro start hstart h
    cases hp : players[start]? with
    | none =>
      rw [List.getElem?_eq_none_iff] at hp
      omega
    | some p =>
      rw [findActiveFrom, hp]
      by_cases he : p.eliminated
      · simp only [he, if_true]
        obtain ⟨k, hk, q, hq, hqe⟩ := h
        have hk0 : k ≠ 0 := by
          intro h0
          subst h0
          rw [Nat.add_zero, Nat.mod_eq_of_lt hstart, hp] at hq
          injection hq with hq2
          subst hq2
          exact absurd he (by simp [hqe])
        obtain ⟨k', rfl⟩ := Nat.exists_eq_succ_of_ne_zero hk0
        apply ih
        · exact Nat.mod_lt _ (by omega)
        · refine ⟨k', by omega, q, ?_, hqe⟩
          have heq : ((start + 1) % players.length + k') % players.length
              = (start + (k' + 1)) % players.length := by
            rw [Nat.mod_add_mod]
            congr 1
            omega
          rw [heq]
          exact hq
      · simp [he]

/-! ### Lemmas about the reveal-one-influence step -/

theorem any_unrevealed_of_pos {cards : List Card} (h : 0 < unrevealedCount cards) :
    cards.any (fun c => !c.revealed) = true := by
  rw [unrevealedCount, List.length_pos] at h
  obtain ⟨c, hc⟩ := List.exists_mem_of_ne_nil _ h
  rw [List.mem_filter] at hc
  exact List.any_eq_true.mpr ⟨c, hc.1, hc.2⟩

theorem revealedCount_eq_countP (cards : List Card) :
    revealedCount cards = cards.countP (fun c => c.revealed) :=
  (List.countP_eq_length_filter _ _).symm

theorem unrevealedCount_eq_countP (cards : List Card) :
    unrevealedCount cards = cards.countP (fun c => !c.revealed) :=
  (List.countP_eq_length_filter _ _).symm

theorem revealAndMaybeEliminate_coins (p : Player) :
    (revealAndMaybeEliminate p).coins = p.coins := by
  unfold revealAndMaybeEliminate
  cases h : jsFindEntry (fun c => !c.revealed) p.cards with
  | none => rfl
  | some e => rfl

theorem revealAndMaybeEliminate_counts (p : Player) (h : 0 < unrevealedCount p.cards) :
    (revealAndMaybeEliminate p).cards.length = p.cards.length
      ∧ revealedCount (revealAndMaybeEliminate p).cards = revealedCount p.cards + 1
      ∧ unrevealedCount (revealAndMaybeEliminate p).cards = unrevealedCount p.cards - 1 := by
  obtain ⟨i, c, heq⟩ := jsFindEntry_isSome_of_any (any_unrevealed_of_pos h)
  obtain ⟨hget, hc⟩ := jsFindEntry_some heq
  have hcrev : c.revealed = false := by simpa using hc
  have hcards : (revealAndMaybeEliminate p).cards
      = listModify p.cards i (fun c => { c with revealed := true }) := by
    simp only [revealAndMaybeEliminate, heq]
  rw [hcards]
  refine ⟨length_listModify .., ?_, ?_⟩
  · have hcp := countP_listModify (fun c => c.revealed)
      (fun c => { c with revealed := true }) hget
    rw [revealedCount_eq_countP, revealedCount_eq_countP]
    simp only [hcrev] at hcp
    simpa using hcp
  · have hcp := countP_listModify (fun c => !c.revealed)
      (fun c => { c with revealed := true }) hget
    rw [unrevealedCount_eq_countP, unrevealedCount_eq_countP]
    rw [unrevealedCount_eq_countP] at h
    simp only [hcrev, Bool.not_false, if_true, Bool.not_true, Bool.false_eq_true,
      if_false] at hcp
    omega

theorem revealAndMaybeEliminate_eliminates (p : Player) (h : unrevealedCount p.cards = 1) :
    (revealAndMaybeEliminate p).eliminated = true := by
  have hpos : 0 < unrevealedCount p.cards := by omega
  obtain ⟨i, c, heq⟩ := jsFindEntry_isSome_of_any (any_unrevealed_of_pos hpos)
  obtain ⟨hget, hc⟩ := jsFindEntry_some heq
  have hcrev : c.revealed = false := by simpa using hc
  have hcp := countP_listModify (fun c => !c.revealed)
    (fun c => { c with revealed := true }) hget
  simp only [hcrev, Bool.not_false, if_true, Bool.not_true, Bool.false_eq_true, if_false] at hcp
  rw [unrevealedCount_eq_countP] at h
  have hzero : (listModify p.cards i (fun c => { c with revealed := true })).countP
      (fun c => !c.revealed) = 0 := by omega
  have hall : (listModify p.cards i (fun c => { c with revealed := true })).all
      (fun c => c.revealed) = true := by
    rw [List.all_eq_true]
    intro x hx
    have := (List.countP_eq_zero.mp hzero) x hx
    simpa using this
  simp only [revealAndMaybeEliminate, heq, hall, if_true]

/-! ### Lemmas about closing out a turn -/

theorem GameRules.finishGameOver_fields (x : GameState) :
    (GameRules.finishGameOver x).players = x.players
      ∧ (GameRules.finishGameOver x).deck = x.deck
      ∧ (GameRules.finishGameOver x).currentPlayerIndex = x.currentPlayerIndex := by
  unfold GameRules.finishGameOver
  rcases hgo : checkGameOver x with ⟨b, w⟩
  cases b <;> cases w <;> simp

theorem GameRules.closeTurn_fields {ns : GameState} {pi : Nat} {s' : GameState}
    (h : GameRules.closeTurn ns pi = some s') :
    s'.players = ns.players ∧ s'.deck = ns.deck := by
  unfold GameRules.closeTurn at h
  cases hf : findActiveFrom ns.players ((pi + 1) % ns.players.length) ns.players.length with
  | none => rw [hf] at h; cases h
  | some nxt =>
    rw [hf] at h
    simp only [Option.some.injEq] at h
    subst h
    exact ⟨(GameRules.finishGameOver_fields _).1, (GameRules.finishGameOver_fields _).2.1⟩

theorem GameRules.closeTurn_some {ns : GameState} {pi : Nat}
    (h : (findActiveFrom ns.players ((pi + 1) % ns.players.length)
      ns.players.length).isSome = true) :
    ∃ s', GameRules.closeTurn ns pi = some s'
      ∧ s'.players = ns.players ∧ s'.deck = ns.deck := by
  obtain ⟨nxt, hn⟩ := Option.isSome_iff_exists.mp h
  refine ⟨GameRules.finishGameOver { ns with currentPlayerIndex := nxt }, ?_, ?_, ?_⟩
  · unfold GameRules.closeTurn
    rw [hn]
  · exact (GameRules.finishGameOver_fields _).1
  · exact (GameRules.finishGameOver_fields _).2.1

/-! ### Concrete fixtures -/

/-- Builds a player record from the fields the engine inspects. -/
def mkPlayer (id : String) (coins : Int) (cards : List Card)
    (eliminated : Bool := false) (allegiance : Option Allegiance := none) : Player :=
  { id := id, user_id := id, display_name := id, displayName := id, coins := coins,
    cards := cards, eliminated := eliminated, allegiance := allegiance }

/-- Builds an in-progress game state with the given deck and players. -/
def mkState (deck : List CardType) (players : List Player) : GameState :=
  { status := GameStatus.in_progress, deck := deck, currentPlayerIndex := 0,
    players := players, currentAction := none, lastAction := none, winner := none,
    treasury := some 50, cardSelection := none }

/-! ## Claim C1 -/

/-- Claim C1 (code bug): the claim says `createDeck` always returns 15 cards —
3 each of duke/assassin/captain/contessa plus 3 inquisitors when
`settings.expansions.inquisitor` is set — and always shuffles.  The code's
inquisitor branch instead returns the 12-card base list early, in its original
order, containing no inquisitor (and no ambassador to replace): for every
random source the result is the unshuffled 12-card literal. -/
theorem createDeck_inquisitor_bug (rand : Nat → Nat) :
    GameRules.createDeck
        { expansions := { reformation := false, inquisitor := true, anarchy := false },
          startingCoins := 2, maxPlayers := 6 } rand
      = [CardType.duke, CardType.duke, CardType.duke,
         CardType.assassin, CardType.assassin, CardType.assassin,
         CardType.captain, CardType.captain, CardType.captain,
         CardType.contessa, CardType.contessa, CardType.contessa] := by
  rfl

/-- Claim C1, witness: the theorem applied to a concrete random source. -/
theorem createDeck_inquisitor_bug_witness :
    GameRules.createDeck
        { expansions := { reformation := false, inquisitor := true, anarchy := false },
          startingCoins := 2, maxPlayers := 6 } (fun _ => 0)
      = [CardType.duke, CardType.duke, CardType.duke,
         CardType.assassin, CardType.assassin, CardType.assassin,
         CardType.captain, CardType.captain, CardType.captain,
         CardType.contessa, CardType.contessa, CardType.contessa] :=
  createDeck_inquisitor_bug (fun _ => 0)

/-! ## Claim C3 -/

/-- Two active players, base game: no allegiance anywhere. -/
def c3State : GameState :=
  mkState []
    [mkPlayer "A" 2 [⟨CardType.duke, false⟩, ⟨CardType.assassin, false⟩],
     mkPlayer "B" 2 [⟨CardType.captain, false⟩, ⟨CardType.contessa, false⟩]]

/-- Claim C3 (code bug): the claim says that with two or more active players
that all have no allegiance the game is NOT over; `checkGameOver` compares the
`undefined` allegiances with `===`, which holds, so it wrongly reports a
"team victory" for a plain two-player base game. -/
theorem checkGameOver_null_allegiance_bug :
    (checkGameOver c3State).isOver = true
      ∧ (checkGameOver c3State).winner
          = some (mkPlayer "A" 2 [⟨CardType.duke, false⟩, ⟨CardType.assassin, false⟩])
      ∧ c3State.players.length = 2
      ∧ c3State.players.all (fun p => !p.eliminated && p.allegiance.isNone) = true :=
  ⟨rfl, rfl, rfl, rfl⟩

/-! ## Claim C6 -/

/-- Claim C6 (confirmed): with `coins ≥ 10`, `canPerformAction` rejects every
action other than Coup with the mandatory-coup reason, and never rejects Coup
itself with that reason. -/
theorem canPerformAction_mandatory_coup (p : Player) (a : ActionType) (t : Option Player)
    (h10 : 10 ≤ p.coins) :
    (a ≠ ActionType.Coup →
      canPerformAction p a t
        = { allowed := false,
            reason := some "With 10 or more coins, you must perform a coup" })
      ∧ (canPerformAction p ActionType.Coup t).reason
          ≠ some "With 10 or more coins, you must perform a coup" := by
  have hca : actionCosts a ≤ 7 := by cases a <;> simp [actionCosts]
  have hcc : actionCosts ActionType.Coup = 7 := rfl
  constructor
  · intro hne
    simp only [canPerformAction]
    split_ifs with h1 h2
    · exfalso; omega
    · rfl
    all_goals exact absurd ⟨h10, hne⟩ h2
  · simp only [canPerformAction]
    split_ifs with h1 h2 h3 h4 h5
    · exfalso; rw [hcc] at h1; omega
    · exact absurd rfl h2.2
    · decide
    · decide
    · decide
    · decide

/-- Claim C6, witness: a ten-coin player may not take Income, and Coup is not
rejected by the mandatory-coup rule. -/
theorem canPerformAction_mandatory_coup_witness :
    canPerformAction (mkPlayer "A" 10 [⟨CardType.duke, false⟩, ⟨CardType.contessa, false⟩])
        ActionType.Income none
      = { allowed := false, reason := some "With 10 or more coins, you must perform a coup" } :=
  (canPerformAction_mandatory_coup
    (mkPlayer "A" 10 [⟨CardType.duke, false⟩, ⟨CardType.contessa, false⟩])
    ActionType.Income none (by decide)).1 (by decide)

/-! ## Claim C9 -/

/-- Claim C9 (confirmed): whenever `player.coins` is below the action's cost,
`canPerformAction` rejects with the exact reason string
`Not enough coins. Needed: <cost>, Have: <coins>`. -/
theorem canPerformAction_insufficient_coins (p : Player) (a : ActionType) (t : Option Player)
    (h : p.coins < actionCosts a) :
    canPerformAction p a t
      = { allowed := false,
          reason := some ("Not enough coins. Needed: " ++ toString (actionCosts a)
            ++ ", Have: " ++ toString p.coins) } := by
  simp only [canPerformAction]
  rw [if_pos h]

/-- Claim C9, witness: a player with 2 coins attempting Assassinate (cost 3)
gets exactly `Not enough coins. Needed: 3, Have: 2`. -/
theorem canPerformAction_insufficient_coins_witness :
    canPerformAction (mkPlayer "A" 2 [⟨CardType.assassin, false⟩, ⟨CardType.duke, false⟩])
        ActionType.Assassinate
        (some (mkPlayer "B" 2 [⟨CardType.captain, false⟩, ⟨CardType.contessa, false⟩]))
      = { allowed := false, reason := some "Not enough coins. Needed: 3, Have: 2" } := by
  rw [canPerformAction_insufficient_coins _ _ _ (by decide)]
  rfl

/-! ## Claim C10 -/

/-- Claim C10 (confirmed): `getAvailableActions` always offers Income and
ForeignAid, and Coup whenever `coins ≥ 7`; it never applies the ten-coin
mandatory-coup rule, so at `coins ≥ 10` it offers Income even though
`canPerformAction` rejects it. -/
theorem getAvailableActions_ignores_forced_coup (p : Player) (gs : GameState) :
    ActionType.Income ∈ getAvailableActions p gs
      ∧ ActionType.ForeignAid ∈ getAvailableActions p gs
      ∧ (7 ≤ p.coins → ActionType.Coup ∈ getAvailableActions p gs)
      ∧ (10 ≤ p.coins →
          ActionType.Income ∈ getAvailableActions p gs
            ∧ (canPerformAction p ActionType.Income none).allowed = false) := by
  refine ⟨?_, ?_, ?_, ?_⟩
  · simp [getAvailableActions]
  · simp [getAvailableActions]
  · intro h7
    have : actionCosts ActionType.Coup ≤ p.coins := by
      have : actionCosts ActionType.Coup = 7 := rfl
      omega
    simp [getAvailableActions, if_pos this]
  · intro h10
    refine ⟨by simp [getAvailableActions], ?_⟩
    have h0 : ¬ p.coins < actionCosts ActionType.Income := by
      have : actionCosts ActionType.Income = 0 := rfl
      omega
    have h2 : 10 ≤ p.coins ∧ ActionType.Income ≠ ActionType.Coup := ⟨h10, by decide⟩
    simp only [canPerformAction]
    rw [if_neg h0, if_pos h2]

/-- Claim C10, witness: at 10 coins the menu still offers Income (and Coup),
while the validator rejects Income. -/
theorem getAvailableActions_ignores_forced_coup_witness :
    ActionType.Coup ∈ getAvailableActions
        (mkPlayer "A" 10 [⟨CardType.duke, false⟩, ⟨CardType.contessa, false⟩]) (mkState [] [])
      ∧ ActionType.Income ∈ getAvailableActions
          (mkPlayer "A" 10 [⟨CardType.duke, false⟩, ⟨CardType.contessa, false⟩]) (mkState [] [])
      ∧ (canPerformAction (mkPlayer "A" 10 [⟨CardType.duke, false⟩, ⟨CardType.contessa, false⟩])
          ActionType.Income none).allowed = false :=
  ⟨(getAvailableActions_ignores_forced_coup _ (mkState [] [])).2.2.1 (by decide),
   ((getAvailableActions_ignores_forced_coup
      (mkPlayer "A" 10 [⟨CardType.duke, false⟩, ⟨CardType.contessa, false⟩]) (mkState [] [])).2.2.2
      (by decide)).1,
   ((getAvailableActions_ignores_forced_coup
      (mkPlayer "A" 10 [⟨CardType.duke, false⟩, ⟨CardType.contessa, false⟩]) (mkState [] [])).2.2.2
      (by decide)).2⟩

/-! ## Claim C5 -/

/-- Extracts membership from a successful index lookup. -/
theorem mem_of_getElemOpt {l : List α} {i : Nat} {a : α} (h : l[i]? = some a) : a ∈ l := by
  obtain ⟨hl, rfl⟩ := List.getElem?_eq_some.mp h
  exact List.getElem_mem hl

/-- Bounds the index of a successful lookup. -/
theorem lt_length_of_getElemOpt {l : List α} {i : Nat} {a : α} (h : l[i]? = some a) :
    i < l.length :=
  (List.getElem?_eq_some.mp h).1

/-- A non-eliminated player at a valid index makes the next-player scan
(with full fuel) succeed from any valid start. -/
theorem findActiveFrom_isSome_of_active {players : List Player} {j : Nat} {q : Player}
    (hq : players[j]? = some q) (hqe : q.eliminated = false) (start : Nat)
    (hstart : start < players.length) :
    (findActiveFrom players start players.length).isSome = true := by
  have hj : j < players.length := lt_length_of_getElemOpt hq
  have hn : 0 < players.length := by omega
  apply findActiveFrom_isSome players players.length start hstart
  refine ⟨(j + players.length - start) % players.length, Nat.mod_lt _ hn, q, ?_, hqe⟩
  have hmod : (start + (j + players.length - start) % players.length) % players.length = j := by
    conv_lhs => rw [Nat.add_mod, Nat.mod_mod_of_dvd _ dvd_rfl]
    rw [← Nat.add_mod]
    have harith : start + (j + players.length - start) = j + players.length := by omega
    rw [harith, Nat.add_mod_right]
    exact Nat.mod_eq_of_lt hj
  rw [hmod]
  exact hq

/-- Two active players "A" and "B"; "ghost" matches nobody. -/
def c5State : GameState :=
  mkState [CardType.duke]
    [mkPlayer "A" 2 [⟨CardType.duke, false⟩, ⟨CardType.assassin, false⟩],
     mkPlayer "B" 2 [⟨CardType.captain, false⟩, ⟨CardType.contessa, false⟩]]

/-- Claim C5 (counterexample): the claim says an unknown `playerId` yields a
typed `NotFoundError`, not a silently unchanged snapshot.  The code has no
error channel at all: on the unknown id "ghost" `applyAction` returns the very
input snapshot as its ordinary return value. -/
theorem applyAction_unknown_player_counterexample :
    GameRules.applyAction c5State "ghost" ActionType.Income none = some c5State
      ∧ c5State.players.map Player.id = ["A", "B"] :=
  ⟨rfl, rfl⟩

/-- Claim C5 (amended): an unknown `playerId` makes `applyAction` return the
input state unchanged (there is no typed error); a known `playerId` with an
unknown `targetId` is not an error either — the target-dependent effects are
skipped but the call still goes through (players and deck untouched, the turn
still advances). -/
theorem applyAction_unknown_ids_amended (s : GameState) (pid : String) (a : ActionType)
    (tid : Option String) :
    ((∀ p ∈ s.players, p.id ≠ pid) → GameRules.applyAction s pid a tid = some s)
      ∧ (∀ t pi actor, tid = some t → (∀ p ∈ s.players, p.id ≠ t) →
          actionRequiresTarget a = true →
          jsFindEntry (fun p => decide (p.id = pid)) s.players = some (pi, actor) →
          actor.eliminated = false →
          ∃ s', GameRules.applyAction s pid a tid = some s'
            ∧ s'.players = s.players ∧ s'.deck = s.deck) := by
  constructor
  · intro hno
    have hnone : jsFindEntry (fun p => decide (p.id = pid)) s.players = none :=
      jsFindEntry_eq_none (fun p hp => decide_eq_false (hno p hp))
    simp only [GameRules.applyAction, hnone]
  · intro t pi actor ht hnot hreq hfind helim
    subst ht
    have htnone : jsFindEntry (fun p => decide (p.id = t)) s.players = none :=
      jsFindEntry_eq_none (fun p hp => decide_eq_false (hnot p hp))
    have heff : GameRules.applyEffects s pid pi actor (some t) none a = s := by
      cases a <;> first
        | rfl
        | exact absurd hreq (by decide)
    have hget := (jsFindEntry_some hfind).1
    have hfa : (findActiveFrom s.players ((pi + 1) % s.players.length)
        s.players.length).isSome = true := by
      refine findActiveFrom_isSome_of_active hget helim _ (Nat.mod_lt _ ?_)
      have := lt_length_of_getElemOpt hget
      omega
    simp only [GameRules.applyAction, hfind, lookupTarget, htnone, heff]
    obtain ⟨s', hs', hp, hd⟩ := @GameRules.closeTurn_some s pi hfa
    exact ⟨s', hs', hp, hd⟩

/-- Claim C5, witness: the amended behaviour at concrete inputs — unknown
actor returns the snapshot unchanged; unknown Coup target is processed with
players and deck untouched. -/
theorem applyAction_unknown_ids_amended_witness :
    GameRules.applyAction c5State "ghost" ActionType.Tax none = some c5State
      ∧ (∃ s', GameRules.applyAction c5State "A" ActionType.Coup (some "ghost") = some s'
          ∧ s'.players = c5State.players ∧ s'.deck = c5State.deck) :=
  ⟨(applyAction_unknown_ids_amended c5State "ghost" ActionType.Tax none).1 (by decide),
   (applyAction_unknown_ids_amended c5State "A" ActionType.Coup (some "ghost")).2
     "ghost" 0 (mkPlayer "A" 2 [⟨CardType.duke, false⟩, ⟨CardType.assassin, false⟩])
     rfl (by decide) (by decide) (by decide) (by decide)⟩

/-! ## Claim C8 -/

/-- Modifying one slot preserves coin non-negativity when the new value of
that slot is non-negative. -/
theorem nonneg_listModify {l : List Player} {i : Nat} {f : Player → Player}
    (h : ∀ p ∈ l, 0 ≤ p.coins)
    (hf : ∀ y, l[i]? = some y → 0 ≤ (f y).coins) :
    ∀ p ∈ listModify l i f, 0 ≤ p.coins := by
  intro p hp
  rcases mem_listModify hp with hm | ⟨y, hy, rfl⟩
  · exact h p hm
  · exact hf y hy

/-- Player "A" holds 0 coins. -/
def c8State : GameState :=
  mkState []
    [mkPlayer "A" 0 [⟨CardType.duke, false⟩, ⟨CardType.assassin, false⟩],
     mkPlayer "B" 2 [⟨CardType.captain, false⟩, ⟨CardType.contessa, false⟩]]

/-- Claim C8 (counterexample): the claim says `applyAction` keeps all coin
balances non-negative for any actor balance; `applyAction` never checks the
cost, so a Coup by a 0-coin actor drives that actor to −7 coins. -/
theorem applyAction_negative_coins_counterexample :
    c8State.players.map Player.coins = [0, 2]
      ∧ (GameRules.applyAction c8State "A" ActionType.Coup (some "B")).map
          (fun s' => s'.players.map Player.coins) = some [-7, 2] :=
  ⟨rfl, rfl⟩

/-- Claim C8 (amended): coin balances stay non-negative under `applyAction`
provided every player named by `playerId` can afford the action's cost (the
precondition `canPerformAction` establishes); without that precondition the
claim fails (see the counterexample). -/
theorem applyAction_nonneg_amended (s : GameState) (pid : String) (a : ActionType)
    (tid : Option String)
    (hpos : ∀ p ∈ s.players, 0 ≤ p.coins)
    (hcost : ∀ p ∈ s.players, p.id = pid → actionCosts a ≤ p.coins) :
    ∀ s', GameRules.applyAction s pid a tid = some s' → ∀ p ∈ s'.players, 0 ≤ p.coins := by
  intro s' hap
  cases hfind : jsFindEntry (fun q => decide (q.id = pid)) s.players with
  | none =>
    rw [GameRules.applyAction.eq_def, hfind] at hap
    simp only [Option.some.injEq] at hap
    subst hap
    exact hpos
  | some e =>
    obtain ⟨pi, actor⟩ := e
    rw [GameRules.applyAction.eq_def, hfind] at hap
    have hget := (jsFindEntry_some hfind).1
    have hid : actor.id = pid := of_decide_eq_true (jsFindEntry_some hfind).2
    have hactor_cost : actionCosts a ≤ actor.coins :=
      hcost actor (mem_of_getElemOpt hget) hid
    have hactor_pos : 0 ≤ actor.coins := hpos actor (mem_of_getElemOpt hget)
    have hpl := (GameRules.closeTurn_fields hap).1
    rw [hpl]
    clear hap
    cases a with
    | Income =>
      show ∀ p ∈ listModify s.players pi (fun p => { p with coins := p.coins + 1 }), 0 ≤ p.coins
      refine nonneg_listModify hpos ?_
      intro y hy
      have hy2 := hpos y (mem_of_getElemOpt hy)
      simp only []
      omega
    | ForeignAid =>
      show ∀ p ∈ listModify s.players pi (fun p => { p with coins := p.coins + 2 }), 0 ≤ p.coins
      refine nonneg_listModify hpos ?_
      intro y hy
      have hy2 := hpos y (mem_of_getElemOpt hy)
      simp only []
      omega
    | Tax =>
      show ∀ p ∈ listModify s.players pi (fun p => { p with coins := p.coins + 3 }), 0 ≤ p.coins
      refine nonneg_listModify hpos ?_
      intro y hy
      have hy2 := hpos y (mem_of_getElemOpt hy)
      simp only []
      omega
    | Steal =>
      cases hte2 : lookupTarget s.players tid with
      | none => simp only [GameRules.applyEffects, hte2]; exact hpos
      | some e2 =>
        obtain ⟨ti, target⟩ := e2
        have htget : s.players[ti]? = some target := by
          cases tid with
          | none => simp [lookupTarget] at hte2
          | some t => exact (jsFindEntry_some (by simpa [lookupTarget] using hte2)).1
        have htpos : 0 ≤ target.coins := hpos target (mem_of_getElemOpt htget)
        simp only [GameRules.applyEffects, hte2]
        have hinner : ∀ p ∈ listModify s.players ti
            (fun p => { p with coins := p.coins - min 2 target.coins }), 0 ≤ p.coins := by
          refine nonneg_listModify hpos ?_
          intro y hy
          rw [htget] at hy
          simp only [Option.some.injEq] at hy
          subst hy
          simp only []
          have hmin : min 2 target.coins ≤ target.coins := min_le_right _ _
          omega
        refine nonneg_listModify hinner ?_
        intro y hy
        have hy2 := hinner y (mem_of_getElemOpt hy)
        have hsa : 0 ≤ min 2 target.coins := le_min (by norm_num) htpos
        simp only []
        omega
    | Assassinate =>
      cases hte2 : lookupTarget s.players tid with
      | none => simp only [GameRules.applyEffects, hte2]; exact hpos
      | some e2 =>
        obtain ⟨ti, target⟩ := e2
        simp only [GameRules.applyEffects, hte2]
        have hinner : ∀ p ∈ listModify s.players pi
            (fun p => { p with coins := p.coins - actionCosts ActionType.Assassinate }),
            0 ≤ p.coins := by
          refine nonneg_listModify hpos ?_
          intro y hy
          rw [hget] at hy
          simp only [Option.some.injEq] at hy
          subst hy
          simp only []
          omega
        refine nonneg_listModify hinner ?_
        intro y hy
        have hy2 := hinner y (mem_of_getElemOpt hy)
        rw [revealAndMaybeEliminate_coins]
        exact hy2
    | Coup =>
      cases hte2 : lookupTarget s.players tid with
      | none => simp only [GameRules.applyEffects, hte2]; exact hpos
      | some e2 =>
        obtain ⟨ti, target⟩ := e2
        simp only [GameRules.applyEffects, hte2]
        have hinner : ∀ p ∈ listModify s.players pi
            (fun p => { p with coins := p.coins - actionCosts ActionType.Coup }),
            0 ≤ p.coins := by
          refine nonneg_listModify hpos ?_
          intro y hy
          rw [hget] at hy
          simp only [Option.some.injEq] at hy
          subst hy
          simp only []
          omega
        refine nonneg_listModify hinner ?_
        intro y hy
        have hy2 := hinner y (mem_of_getElemOpt hy)
        rw [revealAndMaybeEliminate_coins]
        exact hy2
    | Convert =>
      cases hte2 : lookupTarget s.players tid with
      | none => simp only [GameRules.applyEffects, hte2]; exact hpos
      | some e2 =>
        obtain ⟨ti, target⟩ := e2
        cases halg : actor.allegiance with
        | none => simp only [GameRules.applyEffects, hte2, halg]; exact hpos
        | some alg =>
          simp only [GameRules.applyEffects, hte2, halg]
          have hinner : ∀ p ∈ listModify s.players pi
              (fun p => { p with coins := p.coins - actionCosts ActionType.Convert }),
              0 ≤ p.coins := by
            refine nonneg_listModify hpos ?_
            intro y hy
            rw [hget] at hy
            simp only [Option.some.injEq] at hy
            subst hy
            simp only []
            omega
          refine nonneg_listModify hinner ?_
          intro y hy
          have hy2 := hinner y (mem_of_getElemOpt hy)
          simp only []
          exact hy2
    | Exchange => simp only [GameRules.applyEffects]; exact hpos
    | Question => simp only [GameRules.applyEffects]; exact hpos
    | Embezzle => simp only [GameRules.applyEffects]; exact hpos
    | Interrogate => simp only [GameRules.applyEffects]; exact hpos

/-- Claim C8, witness: the amended theorem applied to a funded Coup. -/
theorem applyAction_nonneg_amended_witness :
    ∃ s', GameRules.applyAction
        (mkState [] [mkPlayer "A" 8 [⟨CardType.duke, false⟩, ⟨CardType.assassin, false⟩],
          mkPlayer "B" 2 [⟨CardType.captain, false⟩, ⟨CardType.contessa, false⟩]])
        "A" ActionType.Coup (some "B") = some s'
      ∧ ∀ p ∈ s'.players, 0 ≤ p.coins := by
  have h := applyAction_nonneg_amended
    (mkState [] [mkPlayer "A" 8 [⟨CardType.duke, false⟩, ⟨CardType.assassin, false⟩],
      mkPlayer "B" 2 [⟨CardType.captain, false⟩, ⟨CardType.contessa, false⟩]])
    "A" ActionType.Coup (some "B") (by decide) (by decide)
  exact ⟨_, rfl, h _ rfl⟩

/-! ## Claim C7 -/

/-- Core of the lethal Assassinate/Coup argument: after charging the actor and
revealing the target's last influence, closing the turn succeeds and preserves
the modified player list, with one more revealed card in total. -/
theorem applyAction_lethal_core (s : GameState) (pi ti : Nat)
    (actor target : Player) (cost : Int) (la : Option LastAction)
    (hget : s.players[pi]? = some actor)
    (htget : s.players[ti]? = some target)
    (hne : pi ≠ ti)
    (hone : unrevealedCount target.cards = 1)
    (helim : actor.eliminated = false) :
    ∃ s', GameRules.closeTurn
        { s with
          players := listModify (listModify s.players pi
            (fun p => { p with coins := p.coins - cost })) ti revealAndMaybeEliminate,
          lastAction := la } pi = some s'
      ∧ s'.players[pi]?.map Player.coins = some (actor.coins - cost)
      ∧ s'.players[ti]? = some (revealAndMaybeEliminate target)
      ∧ totalRevealed s' = totalRevealed s + 1 := by
  have hinner_pi : (listModify s.players pi (fun p => { p with coins := p.coins - cost }))[pi]?
      = some { actor with coins := actor.coins - cost } :=
    getElem?_listModify_self _ hget
  have hinner_ti : (listModify s.players pi (fun p => { p with coins := p.coins - cost }))[ti]?
      = some target := by
    rw [getElem?_listModify_ne _ hne]
    exact htget
  have hplist_ti : (listModify (listModify s.players pi
      (fun p => { p with coins := p.coins - cost })) ti revealAndMaybeEliminate)[ti]?
      = some (revealAndMaybeEliminate target) :=
    getElem?_listModify_self _ hinner_ti
  have hplist_pi : (listModify (listModify s.players pi
      (fun p => { p with coins := p.coins - cost })) ti revealAndMaybeEliminate)[pi]?
      = some { actor with coins := actor.coins - cost } := by
    rw [getElem?_listModify_ne _ (Ne.symm hne)]
    exact hinner_pi
  have hpi_lt : pi < s.players.length := lt_length_of_getElemOpt hget
  have hlen : (listModify (listModify s.players pi
      (fun p => { p with coins := p.coins - cost })) ti revealAndMaybeEliminate).length
      = s.players.length := by
    rw [length_listModify, length_listModify]
  have hfa : (findActiveFrom (listModify (listModify s.players pi
        (fun p => { p with coins := p.coins - cost })) ti revealAndMaybeEliminate)
      ((pi + 1) % (listModify (listModify s.players pi
        (fun p => { p with coins := p.coins - cost })) ti revealAndMaybeEliminate).length)
      (listModify (listModify s.players pi
        (fun p => { p with coins := p.coins - cost })) ti revealAndMaybeEliminate).length).isSome
      = true := by
    refine findActiveFrom_isSome_of_active hplist_pi helim _ ?_
    rw [hlen]
    exact Nat.mod_lt _ (by omega)
  obtain ⟨s', hs', hp, _⟩ := @GameRules.closeTurn_some
    { s with
      players := listModify (listModify s.players pi
        (fun p => { p with coins := p.coins - cost })) ti revealAndMaybeEliminate,
      lastAction := la } pi hfa
  refine ⟨s', hs', ?_, ?_, ?_⟩
  · rw [hp]
    show (listModify (listModify s.players pi
      (fun p => { p with coins := p.coins - cost })) ti revealAndMaybeEliminate)[pi]?.map
        Player.coins = some (actor.coins - cost)
    rw [hplist_pi]
    rfl
  · rw [hp]
    exact hplist_ti
  · have h1 := sum_map_listModify (fun p => revealedCount p.cards)
      revealAndMaybeEliminate hinner_ti
    have h2 := sum_map_listModify (fun p => revealedCount p.cards)
      (fun p => { p with coins := p.coins - cost }) hget
    have h3 : revealedCount (revealAndMaybeEliminate target).cards
        = revealedCount target.cards + 1 :=
      (revealAndMaybeEliminate_counts target (by omega)).2.1
    have h4 : revealedCount ({ actor with coins := actor.coins - cost } : Player).cards
        = revealedCount actor.cards := rfl
    simp only [] at h1 h2
    rw [totalRevealed, totalRevealed, hp]
    show (((listModify (listModify s.players pi (fun p => { p with coins := p.coins - cost }))
      ti revealAndMaybeEliminate)).map (fun p => revealedCount p.cards)).sum
        = ((s.players.map (fun p => revealedCount p.cards)).sum) + 1
    omega

/-- Claim C7 (confirmed): a successful Assassinate or Coup against a target
with exactly one unrevealed card charges the actor the action's cost (3 or 7),
reveals the target's first unrevealed card by index, marks the target
eliminated, and raises the state's total revealed-card count by exactly one. -/
theorem applyAction_lethal_reveal (s : GameState) (pid t : String) (pi ti : Nat)
    (actor target : Player) (a : ActionType)
    (hfind : jsFindEntry (fun p => decide (p.id = pid)) s.players = some (pi, actor))
    (htfind : jsFindEntry (fun p => decide (p.id = t)) s.players = some (ti, target))
    (hne : pi ≠ ti)
    (hone : unrevealedCount target.cards = 1)
    (helim : actor.eliminated = false)
    (ha : a = ActionType.Assassinate ∨ a = ActionType.Coup) :
    ∃ s', GameRules.applyAction s pid a (some t) = some s'
      ∧ s'.players[pi]?.map Player.coins = some (actor.coins - actionCosts a)
      ∧ s'.players[ti]? = some (revealAndMaybeEliminate target)
      ∧ (revealAndMaybeEliminate target).eliminated = true
      ∧ revealedCount (revealAndMaybeEliminate target).cards = revealedCount target.cards + 1
      ∧ totalRevealed s' = totalRevealed s + 1 := by
  have hget := (jsFindEntry_some hfind).1
  have htget := (jsFindEntry_some htfind).1
  have helim2 := revealAndMaybeEliminate_eliminates target hone
  have hcount := (revealAndMaybeEliminate_counts target (by omega)).2.1
  rcases ha with rfl | rfl
  · simp only [GameRules.applyAction, hfind, lookupTarget, htfind, GameRules.applyEffects]
    obtain ⟨s', hs', h1, h2, h3⟩ := applyAction_lethal_core s pi ti actor target
      (actionCosts ActionType.Assassinate) (successLog ActionType.Assassinate pid (some t))
      hget htget hne hone helim
    exact ⟨s', hs', h1, h2, helim2, hcount, h3⟩
  · simp only [GameRules.applyAction, hfind, lookupTarget, htfind, GameRules.applyEffects]
    obtain ⟨s', hs', h1, h2, h3⟩ := applyAction_lethal_core s pi ti actor target
      (actionCosts ActionType.Coup) (successLog ActionType.Coup pid (some t))
      hget htget hne hone helim
    exact ⟨s', hs', h1, h2, helim2, hcount, h3⟩

/-- Actor "A" with 8 coins; target "B" with one influence left. -/
def c7State : GameState :=
  mkState [CardType.duke]
    [mkPlayer "A" 8 [⟨CardType.duke, false⟩, ⟨CardType.assassin, false⟩],
     mkPlayer "B" 2 [⟨CardType.captain, true⟩, ⟨CardType.contessa, false⟩]]

/-- Claim C7, witness: a Coup by "A" against single-influence "B". -/
theorem applyAction_lethal_reveal_witness :
    ∃ s', GameRules.applyAction c7State "A" ActionType.Coup (some "B") = some s'
      ∧ s'.players[0]?.map Player.coins
          = some ((mkPlayer "A" 8 [⟨CardType.duke, false⟩, ⟨CardType.assassin, false⟩]).coins
            - actionCosts ActionType.Coup)
      ∧ s'.players[1]? = some (revealAndMaybeEliminate
          (mkPlayer "B" 2 [⟨CardType.captain, true⟩, ⟨CardType.contessa, false⟩]))
      ∧ (revealAndMaybeEliminate
          (mkPlayer "B" 2 [⟨CardType.captain, true⟩, ⟨CardType.contessa, false⟩])).eliminated
          = true
      ∧ revealedCount (revealAndMaybeEliminate
            (mkPlayer "B" 2 [⟨CardType.captain, true⟩, ⟨CardType.contessa, false⟩])).cards
          = revealedCount
              (mkPlayer "B" 2 [⟨CardType.captain, true⟩, ⟨CardType.contessa, false⟩]).cards + 1
      ∧ totalRevealed s' = totalRevealed c7State + 1 :=
  applyAction_lethal_reveal c7State "A" "B" 0 1
    (mkPlayer "A" 8 [⟨CardType.duke, false⟩, ⟨CardType.assassin, false⟩])
    (mkPlayer "B" 2 [⟨CardType.captain, true⟩, ⟨CardType.contessa, false⟩])
    ActionType.Coup (by decide) (by decide) (by decide) (by decide) (by decide) (Or.inr rfl)

/-! ## Claim C2 -/

/-- Replacing the unrevealed slots' types preserves the unrevealed count. -/
theorem unrevealedCount_replaceUnrevealed (cards : List Card) (sel : List CardType) :
    unrevealedCount (Variant0.replaceUnrevealed cards sel) = unrevealedCount cards := by
  induction cards generalizing sel with
  | nil => rfl
  | cons c cs ih =>
    by_cases hr : c.revealed
    · simp only [Variant0.replaceUnrevealed, hr, if_true, unrevealedCount, List.filter_cons,
        Bool.not_true, Bool.false_eq_true]
      simpa [unrevealedCount] using ih sel
    · cases sel with
      | nil =>
        simp only [Variant0.replaceUnrevealed, hr, Bool.false_eq_true, if_false,
          unrevealedCount, List.filter_cons, Bool.not_false]
        simpa [unrevealedCount] using ih []
      | cons t ts =>
        simp only [Variant0.replaceUnrevealed, hr, Bool.false_eq_true, if_false,
          unrevealedCount, List.filter_cons, Bool.not_false]
        simpa [unrevealedCount] using ih ts

/-- Deck of 2; "A" holds two unrevealed dukes. -/
def c2State : GameState :=
  mkState [CardType.duke, CardType.duke]
    [mkPlayer "A" 2 [⟨CardType.duke, false⟩, ⟨CardType.duke, false⟩],
     mkPlayer "B" 2 [⟨CardType.captain, false⟩, ⟨CardType.contessa, false⟩]]

/-- Claim C2 (counterexample): the claim says a successful `completeExchange`
returns the multiset difference (pool − selected) to the deck, restoring the
pre-exchange deck size.  The code filters with `includes`, dropping every copy
of each selected type: starting from a 2-card deck, Exchange draws both, the
pool is four dukes, the player keeps two dukes — and the other two dukes are
not returned, leaving a 0-card deck instead of 2. -/
theorem completeExchange_filter_counterexample :
    c2State.deck.length = 2
      ∧ (Variant0.applyAction c2State "A" ActionType.Exchange none).cardSelection
          = some {
              playerId := "A",
              reason := "exchange",
              validCards := [CardType.duke, CardType.duke, CardType.duke, CardType.duke],
              action := ActionType.Exchange }
      ∧ (Variant0.completeExchange (Variant0.applyAction c2State "A" ActionType.Exchange none)
          "A" [CardType.duke, CardType.duke] (fun _ => 0)).cardSelection = none
      ∧ (Variant0.completeExchange (Variant0.applyAction c2State "A" ActionType.Exchange none)
          "A" [CardType.duke, CardType.duke] (fun _ => 0)).deck.length = 0 := by
  refine ⟨rfl, rfl, rfl, rfl⟩

/-- Claim C2 (amended): a selection whose size differs from the player's
unrevealed-card count makes `completeExchange` return the state unchanged (no
typed `InvalidSelection` error exists); on success, what is returned to the
deck is every pool entry whose type is not among the selected types (all
copies of a selected type are dropped), so the deck grows by the size of that
filter — not necessarily by the multiset difference — and the player's
unrevealed-card count is preserved. -/
theorem completeExchange_amended (s : GameState) (pid : String) (selected : List CardType)
    (rand : Nat → Nat) (pi : Nat) (player : Player)
    (hfind : jsFindEntry (fun p => decide (p.id = pid)) s.players = some (pi, player)) :
    (selected.length ≠ unrevealedCount player.cards →
      Variant0.completeExchange s pid selected rand = s)
      ∧ (selected.length = unrevealedCount player.cards →
          ∀ cs, s.cardSelection = some cs → cs.playerId = pid → cs.reason = "exchange" →
            (Variant0.completeExchange s pid selected rand).deck.length
                = s.deck.length
                  + (cs.validCards.filter (fun c => !decide (c ∈ selected))).length
              ∧ (Variant0.completeExchange s pid selected rand).players[pi]?.map
                  (fun p => unrevealedCount p.cards)
                = some (unrevealedCount player.cards)) := by
  have hget := (jsFindEntry_some hfind).1
  constructor
  · intro hne
    simp only [Variant0.completeExchange, hfind]
    rw [if_pos (by simpa [unrevealedCount] using hne)]
  · intro hlen cs hcs hpid hreason
    have hlen' : ¬ selected.length ≠ (player.cards.filter (fun c => !c.revealed)).length := by
      simp only [unrevealedCount] at hlen
      omega
    have hval : Variant0.completeExchange s pid selected rand
        = { s with
            players := listModify s.players pi
              (fun p => { p with cards := Variant0.replaceUnrevealed p.cards selected }),
            deck := shuffleDeck (s.deck
              ++ cs.validCards.filter (fun c => !decide (c ∈ selected))) rand,
            cardSelection := none } := by
      simp only [Variant0.completeExchange, hfind, hcs]
      rw [if_neg hlen', if_pos ⟨hpid, hreason⟩]
    rw [hval]
    constructor
    · show (shuffleDeck (s.deck ++ cs.validCards.filter (fun c => !decide (c ∈ selected)))
        rand).length = s.deck.length
          + (cs.validCards.filter (fun c => !decide (c ∈ selected))).length
      rw [length_shuffleDeck, List.length_append]
    · show (listModify s.players pi
          (fun p => { p with cards := Variant0.replaceUnrevealed p.cards selected }))[pi]?.map
            (fun p => unrevealedCount p.cards) = some (unrevealedCount player.cards)
      rw [getElem?_listModify_self _ hget]
      simp only [Option.map_some']
      rw [Option.some_inj]
      exact unrevealedCount_replaceUnrevealed player.cards selected

/-- Claim C2, witness: both branches of the amended theorem at concrete
inputs — a 1-card selection against two unrevealed cards is a no-op, and a
successful selection grows the deck by the size of the filtered pool. -/
theorem completeExchange_amended_witness :
    Variant0.completeExchange c2State "A" [CardType.duke] (fun _ => 0) = c2State
      ∧ (Variant0.completeExchange
            { c2State with
              cardSelection := some {
                playerId := "A",
                reason := "exchange",
                validCards := [CardType.duke, CardType.assassin, CardType.duke, CardType.duke],
                action := ActionType.Exchange } }
            "A" [CardType.duke, CardType.duke] (fun _ => 0)).deck.length
          = ({ c2State with
              cardSelection := some {
                playerId := "A",
                reason := "exchange",
                validCards := [CardType.duke, CardType.assassin, CardType.duke, CardType.duke],
                action := ActionType.Exchange } } : GameState).deck.length
            + ([CardType.duke, CardType.assassin, CardType.duke, CardType.duke].filter
                (fun c => !decide (c ∈ [CardType.duke, CardType.duke]))).length := by
  constructor
  · exact (completeExchange_amended c2State "A" [CardType.duke] (fun _ => 0) 0
      (mkPlayer "A" 2 [⟨CardType.duke, false⟩, ⟨CardType.duke, false⟩]) (by decide)).1
      (by decide)
  · exact ((completeExchange_amended
      { c2State with
        cardSelection := some {
          playerId := "A",
          reason := "exchange",
          validCards := [CardType.duke, CardType.assassin, CardType.duke, CardType.duke],
          action := ActionType.Exchange } }
      "A" [CardType.duke, CardType.duke] (fun _ => 0) 0
      (mkPlayer "A" 2 [⟨CardType.duke, false⟩, ⟨CardType.duke, false⟩]) (by decide)).2
      (by decide) _ rfl rfl rfl).1

/-! ## Claim C4 -/

/-- Claim C4 (confirmed): when the accused holds an unrevealed card matching
the claimed character, `handleChallenge` reveals the challenger's first
unrevealed card, and swaps the accused's matching card (return to deck,
reshuffle, draw into the same slot), so the accused's hand length stays 2,
the accused's revealed count is unchanged, and the deck size is unchanged. -/
theorem handleChallenge_failed_swap (s : GameState) (cid aid : String) (at_ : ActionType)
    (rand : Nat → Nat) (ci ai : Nat) (challenger accused : Player)
    (hcf : jsFindEntry (fun p => decide (p.id = cid)) s.players = some (ci, challenger))
    (haf : jsFindEntry (fun p => decide (p.id = aid)) s.players = some (ai, accused))
    (hne : ci ≠ ai)
    (hclaim : accused.cards.any
      (fun c => !c.revealed && decide (c.type ∈ characterActions at_)) = true)
    (hchal : 0 < unrevealedCount challenger.cards)
    (hlen2 : accused.cards.length = 2) :
    (Variant0.handleChallenge s cid aid at_ rand).players[ci]?.map Player.cards
        = some (revealAndMaybeEliminate challenger).cards
      ∧ revealedCount (revealAndMaybeEliminate challenger).cards
          = revealedCount challenger.cards + 1
      ∧ (∃ accused2,
          (Variant0.handleChallenge s cid aid at_ rand).players[ai]? = some accused2
            ∧ accused2.cards.length = 2
            ∧ revealedCount accused2.cards = revealedCount accused.cards)
      ∧ (Variant0.handleChallenge s cid aid at_ rand).deck.length = s.deck.length := by
  have hcget := (jsFindEntry_some hcf).1
  have haget := (jsFindEntry_some haf).1
  have hp1ai : (listModify s.players ci revealAndMaybeEliminate)[ai]? = some accused := by
    rw [getElem?_listModify_ne _ hne]
    exact haget
  obtain ⟨k, card, hk⟩ := jsFindEntry_isSome_of_any hclaim
  obtain ⟨hkget, hkp⟩ := jsFindEntry_some hk
  have hd1len : (shuffleDeck (s.deck ++ [card.type]) rand).length = s.deck.length + 1 := by
    rw [length_shuffleDeck, List.length_append]
    rfl
  have hne_nil : shuffleDeck (s.deck ++ [card.type]) rand ≠ [] := by
    intro h0
    rw [h0] at hd1len
    simp at hd1len
  obtain ⟨nc, hnc⟩ := Option.isSome_iff_exists.mp (List.getLast?_isSome.mpr hne_nil)
  have hval : Variant0.handleChallenge s cid aid at_ rand
      = { s with
          players := listModify (listModify s.players ci revealAndMaybeEliminate) ai
            (fun p => { p with
              cards := listModify p.cards k (fun c => { c with type := nc }) }),
          deck := (shuffleDeck (s.deck ++ [card.type]) rand).dropLast,
          lastAction := Variant0.challengeLog s.lastAction "failed" } := by
    simp only [Variant0.handleChallenge, hcf, haf, hclaim, if_true, hp1ai, hk, hnc]
  rw [hval]
  refine ⟨?_, (revealAndMaybeEliminate_counts challenger hchal).2.1, ?_, ?_⟩
  · show (listModify (listModify s.players ci revealAndMaybeEliminate) ai
        (fun p => { p with
          cards := listModify p.cards k (fun c => { c with type := nc }) }))[ci]?.map
        Player.cards = some (revealAndMaybeEliminate challenger).cards
    rw [getElem?_listModify_ne _ (Ne.symm hne), getElem?_listModify_self _ hcget]
    rfl
  · refine ⟨{ accused with
        cards := listModify accused.cards k (fun c => { c with type := nc }) }, ?_, ?_, ?_⟩
    · show (listModify (listModify s.players ci revealAndMaybeEliminate) ai
          (fun p => { p with
            cards := listModify p.cards k (fun c => { c with type := nc }) }))[ai]?
          = some { accused with
              cards := listModify accused.cards k (fun c => { c with type := nc }) }
      rw [getElem?_listModify_self _ hp1ai]
    · show (listModify accused.cards k (fun c => { c with type := nc })).length = 2
      rw [length_listModify]
      exact hlen2
    · show revealedCount (listModify accused.cards k (fun c => { c with type := nc }))
          = revealedCount accused.cards
      have hcp := countP_listModify (fun c => c.revealed)
        (fun c => { c with type := nc }) hkget
      have hsame : (({ card with type := nc } : Card)).revealed = card.revealed := rfl
      simp only [hsame] at hcp
      rw [revealedCount_eq_countP, revealedCount_eq_countP]
      omega
  · show ((shuffleDeck (s.deck ++ [card.type]) rand).dropLast).length = s.deck.length
    rw [List.length_dropLast, hd1len]
    omega

/-- Challenger "A" with both influences; accused "B" truly holds a Duke. -/
def c4State : GameState :=
  mkState [CardType.captain]
    [mkPlayer "A" 2 [⟨CardType.assassin, false⟩, ⟨CardType.ambassador, false⟩],
     mkPlayer "B" 2 [⟨CardType.duke, false⟩, ⟨CardType.contessa, false⟩]]

/-- Claim C4, witness: a failed challenge against a true Duke-tax claim. -/
theorem handleChallenge_failed_swap_witness :
    (Variant0.handleChallenge c4State "A" "B" ActionType.Tax (fun _ => 0)).players[0]?.map
        Player.cards
        = some (revealAndMaybeEliminate
            (mkPlayer "A" 2 [⟨CardType.assassin, false⟩, ⟨CardType.ambassador, false⟩])).cards
      ∧ revealedCount (revealAndMaybeEliminate
            (mkPlayer "A" 2 [⟨CardType.assassin, false⟩, ⟨CardType.ambassador, false⟩])).cards
          = revealedCount
              (mkPlayer "A" 2 [⟨CardType.assassin, false⟩, ⟨CardType.ambassador, false⟩]).cards
            + 1
      ∧ (∃ accused2,
          (Variant0.handleChallenge c4State "A" "B" ActionType.Tax
              (fun _ => 0)).players[1]? = some accused2
            ∧ accused2.cards.length = 2
            ∧ revealedCount accused2.cards = revealedCount
                (mkPlayer "B" 2 [⟨CardType.duke, false⟩, ⟨CardType.contessa, false⟩]).cards)
      ∧ (Variant0.handleChallenge c4State "A" "B" ActionType.Tax (fun _ => 0)).deck.length
          = c4State.deck.length :=
  handleChallenge_failed_swap c4State "A" "B" ActionType.Tax (fun _ => 0) 0 1
    (mkPlayer "A" 2 [⟨CardType.assassin, false⟩, ⟨CardType.ambassador, false⟩])
    (mkPlayer "B" 2 [⟨CardType.duke, false⟩, ⟨CardType.contessa, false⟩])
    (by decide) (by decide) (by decide) (by decide) (by decide) (by decide)

end Conspire
